import Mathlib

/-!
Shallow embedding of the yabte backtest core (`yabte/backtest/`): the
transaction and trade records (`transaction.py`), the ledger (`book.py`),
the order state machine (`order.py`) and the order queue / runner drain
loop (`strategy.py` / `strategyrunner.py`).

Modelling conventions:
* `Decimal` values are embedded as `ℚ` (exact arithmetic; the claims under
  study involve only addition, subtraction, multiplication and comparison,
  which `Decimal` performs exactly).
* Timestamps are opaque (`ℕ`); pandas day-data never enters the claims:
  each order's `_calc_quantity_price` result (quantity, price) is passed to
  the `apply` embeddings as an argument, and the embeddings start at the
  line following that call, mirroring the source control flow from there.
* Python exceptions are modelled with `Option` / `Except`.
* `Book` omits the fields `denom`, `rate`, `interest_round_dp` and
  `_history`, and `eod_tasks`, which no claim touches; `Trade` omits the
  derived `desc` string.
-/

/-- Asset name string (`asset.py`, `AssetName`). -/
abbrev AssetName := String

/-- Book name string (`book.py`, `BookName`). -/
abbrev BookName := String

/-- Order statuses (`order.py`, `OrderStatus`). -/
inductive OrderStatus where
  | MANDATE_FAILED
  | CANCELLED
  | OPEN
  | COMPLETE
  | REPLACED
deriving DecidableEq, Repr

/-- Condition type of positional orders (`order.py`, `PositionalOrderCheckType`). -/
inductive PositionalOrderCheckType where
  | POS_TQ_DIFFER
  | ZERO_POS
deriving DecidableEq, Repr

/-- A trade record (`transaction.py`, `Trade`), sans the derived `desc`. -/
structure Trade where
  ts : ℕ
  quantity : ℚ
  price : ℚ
  asset_name : AssetName
  order_label : Option String
deriving DecidableEq, Repr

/-- The `total` of a trade; `Trade.__post_init__` always overwrites the
field with `-quantity * price`, so it is a derived value. -/
def Trade.total (t : Trade) : ℚ := -t.quantity * t.price

/-- Trade construction (`Trade.__post_init__`): raises (`none`) when the
quantity is zero, otherwise yields the record. -/
def mkTrade (ts : ℕ) (quantity price : ℚ) (asset_name : AssetName)
    (order_label : Option String) : Option Trade :=
  if quantity = 0 then none
  else some ⟨ts, quantity, price, asset_name, order_label⟩

/-- A bare cash transaction (`transaction.py`, `CashTransaction`). -/
structure CashTransaction where
  ts : ℕ
  total : ℚ
  desc : String
deriving DecidableEq, Repr

/-- A transaction is a trade or a cash transaction (`transaction.py`). -/
inductive Transaction where
  | trade (t : Trade)
  | cashTxn (c : CashTransaction)
deriving DecidableEq, Repr

/-- Total value of a transaction. -/
def Transaction.total : Transaction → ℚ
  | .trade t => t.total
  | .cashTxn c => c.total

/-- A book mandate (`book.py`, `BookMandate`): a check taking the current
position and a proposed quantity. -/
structure BookMandate where
  check : ℚ → ℚ → Bool

/-- The ledger (`book.py`, `Book`). `positions` is a total function
(defaultdict with default `0`), `mandates` a partial map. -/
structure Book where
  name : BookName
  mandates : AssetName → Option BookMandate
  positions : AssetName → ℚ
  transactions : List Transaction
  cash : ℚ

/-- One iteration of the loop in `Book.add_transactions`: a trade adjusts
the asset's position by its quantity and cash by its total; a cash
transaction adjusts cash only; either is appended to `transactions`. -/
def Book.apply_transaction (b : Book) (tran : Transaction) : Book :=
  match tran with
  | .trade t =>
      { b with
        positions := fun a => if a = t.asset_name then b.positions a + t.quantity
          else b.positions a
        cash := b.cash + t.total
        transactions := b.transactions ++ [tran] }
  | .cashTxn c =>
      { b with
        cash := b.cash + c.total
        transactions := b.transactions ++ [tran] }

/-- The `Book.add_transactions` loop over a batch. -/
def Book.add_transactions (b : Book) (trans : List Transaction) : Book :=
  trans.foldl Book.apply_transaction b

/-- The body of `Book.test_trades` for one asset group: if the asset has a
mandate, run its check on the current position and the group's aggregate
quantity, else pass. -/
def Book.check_group (b : Book) (a : AssetName) (total_quantity : ℚ) : Bool :=
  match b.mandates a with
  | some m => m.check (b.positions a) total_quantity
  | none => true

/-- The `itertools.groupby` traversal inside `Book.test_trades`: `cur` is
the asset of the group being accumulated and `acc` its quantity sum so far;
a trade with a different asset closes the group (checking it) and opens a
new one.  `groupby` groups only consecutive equal keys, which this mirrors. -/
def Book.test_trades_go (b : Book) (cur : AssetName) (acc : ℚ) : List Trade → Bool
  | [] => b.check_group cur acc
  | t :: rest =>
      if t.asset_name = cur then b.test_trades_go cur (acc + t.quantity) rest
      else b.check_group cur acc && b.test_trades_go t.asset_name t.quantity rest

/-- `Book.test_trades`: checks whether a list of trades passes all mandates,
grouping consecutive trades of the same asset. -/
def Book.test_trades (b : Book) : List Trade → Bool
  | [] => true
  | t :: rest => b.test_trades_go t.asset_name t.quantity rest

/-- `OrderBase._book_trades` (minus the `post_complete` hook, which only
appends suborders and never touches the book): test the batch, and either
book all of it with status COMPLETE or none of it with status
MANDATE_FAILED. -/
def book_trades (b : Book) (trades : List Trade) : Book × OrderStatus :=
  if b.test_trades trades then
    (b.add_transactions (trades.map Transaction.trade), OrderStatus.COMPLETE)
  else (b, OrderStatus.MANDATE_FAILED)

/-- The default `Order.pre_execute_check`: always `None`. -/
def pre_execute_check_default : ℕ → ℚ → Option OrderStatus := fun _ _ => none

/-- Errors an order application can raise: the fatal missing-book error and
the zero-quantity `Trade` construction error. -/
inductive ApplyErr where
  | noBook
  | zeroQty
deriving DecidableEq, Repr

/-- `Order.apply` (market order) from the line after `_calc_quantity_price`
returns: consult the pre-execution hook with the computed price; a returned
status short-circuits without booking; otherwise build the single trade and
submit it. -/
def order_apply (b : Book) (an : AssetName) (lbl : Option String) (ts : ℕ)
    (tq tp : ℚ) (hook : ℕ → ℚ → Option OrderStatus) :
    Except ApplyErr (Book × OrderStatus) :=
  match hook ts tp with
  | some st => Except.ok (b, st)
  | none =>
      match mkTrade ts tq tp an lbl with
      | none => Except.error ApplyErr.zeroQty
      | some tr => Except.ok (book_trades b [tr])

/-- `PositionalOrder.apply` from the line after `_calc_quantity_price`
returns: hook first, then decide per `check_type` whether trades are
needed, then close any nonzero position and open any nonzero target. -/
def positional_apply (b : Book) (an : AssetName) (lbl : Option String)
    (ct : PositionalOrderCheckType) (ts : ℕ) (tq tp : ℚ)
    (hook : ℕ → ℚ → Option OrderStatus) : Book × OrderStatus :=
  match hook ts tp with
  | some st => (b, st)
  | none =>
      let pos := b.positions an
      let needs : Bool :=
        match ct with
        | .POS_TQ_DIFFER => pos ≠ tq
        | .ZERO_POS => pos = 0
      let trades :=
        if needs then
          (if pos ≠ 0 then [Trade.mk ts (-pos) tp an lbl] else []) ++
          (if tq ≠ 0 then [Trade.mk ts tq tp an lbl] else [])
        else []
      book_trades b trades

/-- The trade list built by `BasketOrder.apply` over the zipped
`(asset, (quantity, price))` entries: one trade per asset at the computed
quantity and price, with no zero-quantity guard, so construction fails
(`none`) at the first zero computed quantity. -/
def basket_trades (ts : ℕ) (lbl : Option String) :
    List (AssetName × ℚ × ℚ) → Option (List Trade)
  | [] => some []
  | p :: rest =>
      match mkTrade ts p.2.1 p.2.2 p.1 lbl with
      | none => none
      | some tr =>
          match basket_trades ts lbl rest with
          | none => none
          | some trs => some (tr :: trs)

/-- `BasketOrder.apply` from the line after `_calc_quantity_price` returns:
build the trades and submit them.  The source consults no pre-execution
hook here (`pre_execute_check` is defined on `Order`, and `BasketOrder`
derives from `OrderBase`). -/
def basket_apply (b : Book) (lbl : Option String) (ts : ℕ)
    (asset_names : List AssetName) (tqps : List (ℚ × ℚ)) :
    Except ApplyErr (Book × OrderStatus) :=
  match basket_trades ts lbl (asset_names.zip tqps) with
  | none => Except.error ApplyErr.zeroQty
  | some trs => Except.ok (book_trades b trs)

/-- The closing/opening pair `PositionalBasketOrder.apply` appends for one
zipped entry `(asset, (target quantity, price))`: a closing trade when the
current position is nonzero followed by an opening trade when the target is
nonzero. -/
def close_open_trades (b : Book) (ts : ℕ) (lbl : Option String)
    (p : AssetName × ℚ × ℚ) : List Trade :=
  (if b.positions p.1 ≠ 0 then [Trade.mk ts (-(b.positions p.1)) p.2.2 p.1 lbl] else []) ++
  (if p.2.1 ≠ 0 then [Trade.mk ts p.2.1 p.2.2 p.1 lbl] else [])

/-- The `needs_trades` variable of `PositionalBasketOrder.apply`: a single
global `any` over the assets, per the order's `check_type`. -/
def positional_basket_needs (b : Book) (ct : PositionalOrderCheckType)
    (asset_names : List AssetName) (tqps : List (ℚ × ℚ)) : Bool :=
  match ct with
  | .POS_TQ_DIFFER => (asset_names.zip tqps).any (fun p => b.positions p.1 ≠ p.2.1)
  | .ZERO_POS => asset_names.any (fun an => b.positions an = 0)

/-- The trade list built by `PositionalBasketOrder.apply`: if the single
global `needs_trades` decision holds, the close/open pairs are emitted for
every zipped asset. -/
def positional_basket_trades (b : Book) (ts : ℕ) (lbl : Option String)
    (ct : PositionalOrderCheckType) (asset_names : List AssetName)
    (tqps : List (ℚ × ℚ)) : List Trade :=
  if positional_basket_needs b ct asset_names tqps then
    (asset_names.zip tqps).foldl (fun acc p => acc ++ close_open_trades b ts lbl p) []
  else []

/-- `PositionalBasketOrder.apply` from the line after `_calc_quantity_price`
returns: build the trades (no hook in the source) and submit them. -/
def positional_basket_apply (b : Book) (lbl : Option String)
    (ct : PositionalOrderCheckType) (ts : ℕ) (asset_names : List AssetName)
    (tqps : List (ℚ × ℚ)) : Book × OrderStatus :=
  book_trades b (positional_basket_trades b ts lbl ct asset_names tqps)

/-- The guard opening every `apply` variant:
`if not self.book or not isinstance(self.book, Book): raise RuntimeError`.
The `book` field is `BookName | Book | None`; only an actual `Book`
instance passes. -/
def book_instance_check : Option (BookName ⊕ Book) → Except ApplyErr Book
  | some (Sum.inr b) => Except.ok b
  | _ => Except.error ApplyErr.noBook

/-- The book-resolution step of `StrategyRunner.run`: when the order's
`book` field is not a `Book` instance, replace it with
`book_map.get(order.book, books[0])`. -/
def resolve_book (bf : Option (BookName ⊕ Book)) (bm : BookName → Option Book)
    (first : Book) : Option (BookName ⊕ Book) :=
  match bf with
  | some (Sum.inr b) => some (Sum.inr b)
  | some (Sum.inl nm) => some (Sum.inr ((bm nm).getD first))
  | none => some (Sum.inr first)

/-- `StrategyRunner.__post_init__` book setup: an empty `books` list is
replaced by a single default book named Main carrying the runner's
mandates. -/
def setup_books (mandates : AssetName → Option BookMandate)
    (books : List Book) : List Book :=
  if books.isEmpty then [⟨"Main", mandates, fun _ => 0, [], 0⟩] else books

/-- `Order.apply` including its leading book-instance guard. -/
def order_apply_checked (bf : Option (BookName ⊕ Book)) (an : AssetName)
    (lbl : Option String) (ts : ℕ) (tq tp : ℚ)
    (hook : ℕ → ℚ → Option OrderStatus) : Except ApplyErr (Book × OrderStatus) :=
  (book_instance_check bf).bind fun b => order_apply b an lbl ts tq tp hook

/-- `PositionalOrder.apply` including its leading book-instance guard. -/
def positional_apply_checked (bf : Option (BookName ⊕ Book)) (an : AssetName)
    (lbl : Option String) (ct : PositionalOrderCheckType) (ts : ℕ) (tq tp : ℚ)
    (hook : ℕ → ℚ → Option OrderStatus) : Except ApplyErr (Book × OrderStatus) :=
  (book_instance_check bf).bind fun b =>
    Except.ok (positional_apply b an lbl ct ts tq tp hook)

/-- `BasketOrder.apply` including its leading book-instance guard. -/
def basket_apply_checked (bf : Option (BookName ⊕ Book)) (lbl : Option String)
    (ts : ℕ) (asset_names : List AssetName) (tqps : List (ℚ × ℚ)) :
    Except ApplyErr (Book × OrderStatus) :=
  (book_instance_check bf).bind fun b => basket_apply b lbl ts asset_names tqps

/-- `PositionalBasketOrder.apply` including its leading book-instance guard. -/
def positional_basket_apply_checked (bf : Option (BookName ⊕ Book))
    (lbl : Option String) (ct : PositionalOrderCheckType) (ts : ℕ)
    (asset_names : List AssetName) (tqps : List (ℚ × ℚ)) :
    Except ApplyErr (Book × OrderStatus) :=
  (book_instance_check bf).bind fun b =>
    Except.ok (positional_basket_apply b lbl ct ts asset_names tqps)

/-- Queue-level view of an order (`OrderBase`): the fields the queue
operations (`sort_by_priority`, `remove_duplicate_keys`) and the runner's
drain loop inspect.  The `book` reference and `suborders` are handled
separately (`resolve_book`, the `drain` apply function). -/
structure OrderB where
  status : OrderStatus
  priority : Int
  key : Option String
  label : Option String
deriving DecidableEq, Repr

/-- Descending-priority comparison used by `Orders.sort_by_priority`
(`sorted(..., key=lambda o: o.priority, reverse=True)`). -/
def rDesc (a b : OrderB) : Prop := b.priority ≤ a.priority

instance : DecidableRel rDesc :=
  fun a b => inferInstanceAs (Decidable (b.priority ≤ a.priority))

instance : IsTotal OrderB rDesc := ⟨fun a b => le_total b.priority a.priority⟩

instance : IsTrans OrderB rDesc := ⟨fun _ _ _ h1 h2 => le_trans h2 h1⟩

/-- `Orders.sort_by_priority`: Python's `sorted` is a stable sort, embedded
as the (extensionally equal) stable insertion sort on the descending
priority preorder. -/
def sort_by_priority (l : List OrderB) : List OrderB := l.insertionSort rDesc

/-- Number of orders in `l` carrying the (non-null) key `k`: the value
`Counter(o.key for o in self.deque if o.key is not None)[k]`. -/
def keyCount (l : List OrderB) (k : String) : ℕ :=
  (l.filter (fun o => o.key = some k)).length

/-- The pop-left loop of `Orders.remove_duplicate_keys`: orders whose key
still has a counter above one are moved to the removed list with status
REPLACED and the counter decremented; all others are kept. Returns
(kept, removed). -/
def rdkLoop : List OrderB → (String → ℕ) → List OrderB × List OrderB
  | [], _ => ([], [])
  | o :: rest, cnt =>
      match o.key with
      | some k =>
          if 1 < cnt k then
            let pr := rdkLoop rest (fun k2 => if k2 = k then cnt k - 1 else cnt k2)
            (pr.1, { o with status := OrderStatus.REPLACED } :: pr.2)
          else
            let pr := rdkLoop rest cnt
            (o :: pr.1, pr.2)
      | none =>
          let pr := rdkLoop rest cnt
          (o :: pr.1, pr.2)

/-- `Orders.remove_duplicate_keys`: when some non-null key occurs more than
once, run the replacement loop seeded with the key counter; otherwise the
queue is left untouched and nothing is removed.  Returns the new queue
contents and the removed (REPLACED) orders. -/
def remove_duplicate_keys (l : List OrderB) : List OrderB × List OrderB :=
  if l.any (fun o =>
      match o.key with
      | some k => 1 < keyCount l k
      | none => false) then
    rdkLoop l (keyCount l)
  else (l, [])

/-- Specification shadow of `remove_duplicate_keys` (the spec's words): an
order survives iff its key is null or no later order in the queue carries
the same key. -/
def keepLastSpec : List OrderB → List OrderB
  | [] => []
  | o :: rest =>
      if o.key ≠ none ∧ (∃ u ∈ rest, u.key = o.key) then keepLastSpec rest
      else o :: keepLastSpec rest

/-- Specification shadow of `remove_duplicate_keys` (the spec's words): the
removed orders are exactly the earlier duplicates, in queue order, with
status REPLACED. -/
def replacedSpec : List OrderB → List OrderB
  | [] => []
  | o :: rest =>
      if o.key ≠ none ∧ (∃ u ∈ rest, u.key = o.key) then
        { o with status := OrderStatus.REPLACED } :: replacedSpec rest
      else replacedSpec rest

/-- The four terminal statuses named by the spec. -/
def terminalStatuses : List OrderStatus :=
  [OrderStatus.COMPLETE, OrderStatus.CANCELLED,
   OrderStatus.MANDATE_FAILED, OrderStatus.REPLACED]

/-- The drain loop of `StrategyRunner.run` over one timestep, with the
polymorphic `order.apply` dispatch (including book resolution and status
mutation) abstracted as `applyFn`, returning the mutated order, the
mutated book and the order's `suborders`.  Popped orders whose status is
OPEN afterwards are re-queued behind the suborders; all others are
appended to `orders_processed`.  Returns (next-timestep buffer, processed,
book). -/
def drain (applyFn : OrderB → Book → OrderB × Book × List OrderB) :
    List OrderB → Book → List OrderB → List OrderB →
    List OrderB × List OrderB × Book
  | [], b, nxt, prc => (nxt, prc, b)
  | o :: rest, b, nxt, prc =>
      let r := applyFn o b
      let nxt2 := nxt ++ r.2.2
      if r.1.status = OrderStatus.OPEN then drain applyFn rest r.2.1 (nxt2 ++ [r.1]) prc
      else drain applyFn rest r.2.1 nxt2 (prc ++ [r.1])

/-- One timestep of `StrategyRunner.run` around the queue: priority-sort,
drain, re-queue the next-timestep buffer, then remove duplicate keys and
record the replaced orders as processed.  Returns (unprocessed queue,
processed list, book). -/
def runner_timestep (applyFn : OrderB → Book → OrderB × Book × List OrderB)
    (unproc prc : List OrderB) (b : Book) :
    List OrderB × List OrderB × Book :=
  let dr := drain applyFn (sort_by_priority unproc) b [] prc
  let rdk := remove_duplicate_keys dr.1
  (rdk.1, dr.2.1 ++ rdk.2, dr.2.2)

/-- Specification shadow of `Book.test_trades` (the spec's words): group
the batch by asset regardless of the trades' positions in it, and run each
mandated asset's check once on the aggregate quantity of all its trades in
the whole batch.  (Checking at every trade of the asset rather than once
per asset evaluates the same condition.) -/
def test_trades_spec (b : Book) (trades : List Trade) : Bool :=
  trades.all fun t =>
    b.check_group t.asset_name
      (((trades.filter (fun u => u.asset_name = t.asset_name)).map Trade.quantity).sum)

/-- Concatenation of a list of per-asset trade blocks. -/
def blocksJoin (blocks : List (AssetName × List Trade)) : List Trade :=
  blocks.flatMap Prod.snd

/-- Modelled from the spec: the shared application protocol's step 3
applied to `BasketOrder`, which the source lacks — invoke the
pre-execution hook (here with the first leg's execution price) and stop
with its status before booking anything. -/
def basket_apply_hooked (hook : ℕ → ℚ → Option OrderStatus) (b : Book)
    (lbl : Option String) (ts : ℕ) (asset_names : List AssetName)
    (tqps : List (ℚ × ℚ)) : Except ApplyErr (Book × OrderStatus) :=
  match hook ts ((tqps.head?.map Prod.snd).getD 0) with
  | some st => Except.ok (b, st)
  | none => basket_apply b lbl ts asset_names tqps

/-- Modelled from the spec: `PositionalBasketOrder` trade building with the
close-and-reopen decision made per asset — an asset contributes trades
only when its own `check_type` condition warrants them. -/
def positional_basket_trades_per_asset (b : Book) (ts : ℕ)
    (lbl : Option String) (ct : PositionalOrderCheckType)
    (asset_names : List AssetName) (tqps : List (ℚ × ℚ)) : List Trade :=
  (asset_names.zip tqps).flatMap fun p =>
    let needs : Bool :=
      match ct with
      | .POS_TQ_DIFFER => b.positions p.1 ≠ p.2.1
      | .ZERO_POS => b.positions p.1 = 0
    if needs then close_open_trades b ts lbl p else []

/-- A mandate admitting aggregate quantities of at most one. -/
def mandateAtMostOne : BookMandate := ⟨fun _ q => q ≤ 1⟩

/-- Example book: empty positions, a quantity-capping mandate on asset A. -/
def bookA : Book :=
  ⟨"Main", fun a => if a = "A" then some mandateAtMostOne else none,
   fun _ => 0, [], 100⟩

/-- Example interleaved batch: asset A, then B, then A again, each with
quantity one. -/
def interleavedTrades : List Trade :=
  [⟨0, 1, 1, "A", none⟩, ⟨0, 1, 1, "B", none⟩, ⟨0, 1, 1, "A", none⟩]

/-- Example book with no mandates and a position of five in asset A. -/
def bookPosA : Book :=
  ⟨"Main", fun _ => none, fun a => if a = "A" then 5 else 0, [], 100⟩

/-- Example book with no mandates and no positions. -/
def bookEmpty : Book := ⟨"Main", fun _ => none, fun _ => 0, [], 100⟩

/-- A pre-execution hook that always cancels. -/
def cancelHook : ℕ → ℚ → Option OrderStatus := fun _ _ => some OrderStatus.CANCELLED

/-- Example orders with priorities two, three and one, in insertion order. -/
def ordersPr231 : List OrderB :=
  [⟨OrderStatus.OPEN, 2, none, some "p2"⟩,
   ⟨OrderStatus.OPEN, 3, none, some "p3"⟩,
   ⟨OrderStatus.OPEN, 1, none, some "p1"⟩]

/-- Example queue with a duplicated key k around a keyless order. -/
def ordersDupKey : List OrderB :=
  [⟨OrderStatus.OPEN, 0, some "k", some "old"⟩,
   ⟨OrderStatus.OPEN, 0, none, some "mid"⟩,
   ⟨OrderStatus.OPEN, 0, some "k", some "new"⟩]

/-- An apply function for the drain loop that leaves the order, the book
and the suborder list untouched. -/
def applyId : OrderB → Book → OrderB × Book × List OrderB :=
  fun o bk => (o, bk, [])

/-! ## Ledger bookkeeping lemmas -/

theorem apply_transaction_cash (b : Book) (t : Transaction) :
    (b.apply_transaction t).cash = b.cash + t.total := by
  cases t <;> rfl

theorem apply_transaction_transactions (b : Book) (t : Transaction) :
    (b.apply_transaction t).transactions = b.transactions ++ [t] := by
  cases t <;> rfl

theorem add_transactions_transactions (b : Book) (trans : List Transaction) :
    (b.add_transactions trans).transactions = b.transactions ++ trans := by
  induction trans generalizing b with
  | nil => simp [Book.add_transactions]
  | cons t rest ih =>
      have h := ih (b.apply_transaction t)
      simp only [Book.add_transactions, List.foldl_cons] at h ⊢
      rw [h, apply_transaction_transactions, List.append_assoc, List.singleton_append]

theorem add_trades_cash (b : Book) (ts : List Trade) :
    (b.add_transactions (ts.map Transaction.trade)).cash
      = b.cash - ((ts.map fun t => t.quantity * t.price).sum) := by
  induction ts generalizing b with
  | nil => simp [Book.add_transactions]
  | cons t rest ih =>
      have h := ih (b.apply_transaction (Transaction.trade t))
      simp only [Book.add_transactions, List.foldl_cons, List.map_cons] at h ⊢
      rw [h, apply_transaction_cash]
      simp only [Transaction.total, Trade.total, List.sum_cons]
      ring

theorem add_trades_positions (b : Book) (ts : List Trade) (a : AssetName) :
    (b.add_transactions (ts.map Transaction.trade)).positions a
      = b.positions a
        + (((ts.filter fun t => t.asset_name = a).map Trade.quantity).sum) := by
  induction ts generalizing b with
  | nil => simp [Book.add_transactions]
  | cons t rest ih =>
      have h := ih (b.apply_transaction (Transaction.trade t))
      simp only [Book.add_transactions, List.foldl_cons, List.map_cons] at h ⊢
      rw [h]
      by_cases hc : t.asset_name = a
      · subst hc
        simp [Book.apply_transaction, List.filter_cons]
        ring
      · have hc2 : ¬ a = t.asset_name := fun hh => hc hh.symm
        simp [Book.apply_transaction, List.filter_cons, hc, hc2]

/-- C1: for every batch of trades booked via `Book.add_transactions`, cash
changes by exactly the negated sum of quantity times price, and each
asset's position changes by the sum of the batch's quantities for that
asset; a trade's total is the derived `-quantity * price`, and
constructing a trade with quantity zero fails. -/
theorem money_conservation (b : Book) (ts : List Trade) :
    ((b.add_transactions (ts.map Transaction.trade)).cash
        = b.cash - ((ts.map fun t => t.quantity * t.price).sum))
    ∧ (∀ a : AssetName,
        (b.add_transactions (ts.map Transaction.trade)).positions a
          = b.positions a
            + (((ts.filter fun t => t.asset_name = a).map Trade.quantity).sum))
    ∧ (∀ t : Trade, t.total = -t.quantity * t.price)
    ∧ (∀ (ts0 : ℕ) (p : ℚ) (an : AssetName) (lb : Option String),
        mkTrade ts0 0 p an lb = none) :=
  ⟨add_trades_cash b ts, add_trades_positions b ts,
   fun _ => rfl, fun _ _ _ _ => rfl⟩

/-! ## Mandate atomicity (C2) -/

/-- C2: a submitted trade batch either fails its mandate test, leaving the
book entirely untouched with status MANDATE_FAILED, or passes and is
applied in full with status COMPLETE. -/
theorem mandate_atomicity (b : Book) (trades : List Trade) :
    (b.test_trades trades = false →
      book_trades b trades = (b, OrderStatus.MANDATE_FAILED))
    ∧ (b.test_trades trades = true →
      book_trades b trades
        = (b.add_transactions (trades.map Transaction.trade),
           OrderStatus.COMPLETE)) := by
  refine ⟨fun h => ?_, fun h => ?_⟩ <;> simp [book_trades, h]

/-- Witness for C2 at concrete inputs: a batch of quantity two fails the
at-most-one mandate and leaves the book untouched; a batch of quantity one
passes and is booked in full. -/
theorem mandate_atomicity_witness :
    (bookA.test_trades [⟨0, 2, 1, "A", none⟩] = false
      ∧ book_trades bookA [⟨0, 2, 1, "A", none⟩]
          = (bookA, OrderStatus.MANDATE_FAILED))
    ∧ (bookA.test_trades [⟨0, 1, 1, "A", none⟩] = true
      ∧ book_trades bookA [⟨0, 1, 1, "A", none⟩]
          = (bookA.add_transactions
              ([⟨0, 1, 1, "A", none⟩].map Transaction.trade),
             OrderStatus.COMPLETE)) := by
  have h1 : bookA.test_trades [⟨0, 2, 1, "A", none⟩] = false := by
    simp [Book.test_trades, Book.test_trades_go, Book.check_group, bookA,
      mandateAtMostOne]
  have h2 : bookA.test_trades [⟨0, 1, 1, "A", none⟩] = true := by
    simp [Book.test_trades, Book.test_trades_go, Book.check_group, bookA,
      mandateAtMostOne]
  exact ⟨⟨h1, (mandate_atomicity bookA _).1 h1⟩,
         ⟨h2, (mandate_atomicity bookA _).2 h2⟩⟩

/-! ## Priority sorting (C3) -/

/-- C3: `sort_by_priority` permutes the queue into descending priority
order, equal-priority orders keep their relative insertion order (the
sublist at each priority is unchanged), and the concrete [2,3,1] insertion
yields execution order [3,2,1]. -/
theorem sort_by_priority_correct (l : List OrderB) :
    List.Perm (sort_by_priority l) l
    ∧ (sort_by_priority l).Pairwise (fun a b => b.priority ≤ a.priority)
    ∧ (∀ p : Int, (sort_by_priority l).filter (fun o => o.priority = p)
        = l.filter (fun o => o.priority = p))
    ∧ sort_by_priority ordersPr231
        = [⟨OrderStatus.OPEN, 3, none, some "p3"⟩,
           ⟨OrderStatus.OPEN, 2, none, some "p2"⟩,
           ⟨OrderStatus.OPEN, 1, none, some "p1"⟩] := by
  refine ⟨List.perm_insertionSort rDesc l,
    (List.sorted_insertionSort rDesc l).imp (fun h => h), fun p => ?_, by decide⟩
  have hmem : ∀ o ∈ l.filter (fun o => decide (o.priority = p)), o.priority = p :=
    fun o ho => of_decide_eq_true (List.mem_filter.mp ho).2
  have hpw : (l.filter (fun o => decide (o.priority = p))).Pairwise rDesc :=
    List.pairwise_of_forall_mem_list (fun a ha b hb => by
      show b.priority ≤ a.priority
      rw [hmem a ha, hmem b hb])
  have hsub : List.Sublist (l.filter (fun o => decide (o.priority = p)))
      (sort_by_priority l) :=
    List.sublist_insertionSort hpw (List.filter_sublist l)
  have hself : (l.filter (fun o => decide (o.priority = p))).filter
      (fun o => decide (o.priority = p)) = l.filter (fun o => decide (o.priority = p)) :=
    List.filter_eq_self.mpr (fun o ho => decide_eq_true (hmem o ho))
  have hsub2 := hsub.filter (fun o => decide (o.priority = p))
  rw [hself] at hsub2
  have hlen : ((sort_by_priority l).filter (fun o => decide (o.priority = p))).length
      = (l.filter (fun o => decide (o.priority = p))).length :=
    ((List.perm_insertionSort rDesc l).filter _).length_eq
  exact (hsub2.eq_of_length (by rw [hlen])).symm

/-! ## Key replacement (C4) -/

theorem keyCount_cons (o : OrderB) (rest : List OrderB) (k : String) :
    keyCount (o :: rest) k
      = (if o.key = some k then 1 else 0) + keyCount rest k := by
  by_cases h : o.key = some k <;> simp [keyCount, List.filter_cons, h] <;> omega

theorem keyCount_pos_iff (rest : List OrderB) (k : String) :
    0 < keyCount rest k ↔ ∃ u ∈ rest, u.key = some k := by
  rw [keyCount, ← List.countP_eq_length_filter, List.countP_pos_iff]
  simp

theorem rdkLoop_eq_spec (l : List OrderB) (cnt : String → ℕ)
    (h : ∀ k, 0 < keyCount l k → cnt k = keyCount l k) :
    rdkLoop l cnt = (keepLastSpec l, replacedSpec l) := by
  induction l generalizing cnt with
  | nil => rfl
  | cons o rest ih =>
      cases ho : o.key with
      | none =>
          have hco : ∀ k, keyCount (o :: rest) k = keyCount rest k := by
            intro k; rw [keyCount_cons]; simp [ho]
          have hrest : ∀ k, 0 < keyCount rest k → cnt k = keyCount rest k := by
            intro k hk
            rw [← hco k]
            exact h k (by rw [hco]; exact hk)
          have hcond : ¬ (o.key ≠ none ∧ ∃ u ∈ rest, u.key = o.key) := by
            rintro ⟨hne, -⟩; exact hne ho
          simp [rdkLoop, ho, keepLastSpec, replacedSpec, hcond, ih cnt hrest]
      | some k =>
          have hcnt : cnt k = 1 + keyCount rest k := by
            have h0 : 0 < keyCount (o :: rest) k := by
              rw [keyCount_cons]; simp [ho]
            rw [h k h0, keyCount_cons, if_pos ho]
          have hco2 : ∀ k2, k2 ≠ k → keyCount (o :: rest) k2 = keyCount rest k2 := by
            intro k2 hk2
            rw [keyCount_cons]
            have : ¬ o.key = some k2 := by rw [ho]; simp [Ne.symm hk2]
            simp [this]
          by_cases hdup : 0 < keyCount rest k
          · have hgt : 1 < cnt k := by omega
            have hex : o.key ≠ none ∧ ∃ u ∈ rest, u.key = o.key := by
              refine ⟨by rw [ho]; simp, ?_⟩
              rw [ho]; exact (keyCount_pos_iff rest k).1 hdup
            have hrest : ∀ k2, 0 < keyCount rest k2 →
                (fun k2 => if k2 = k then cnt k - 1 else cnt k2) k2
                  = keyCount rest k2 := by
              intro k2 hk2
              by_cases hk2k : k2 = k
              · subst hk2k; simp; omega
              · simp only [if_neg hk2k]
                rw [← hco2 k2 hk2k]
                exact h k2 (by rw [hco2 k2 hk2k]; exact hk2)
            have hex2 : ∃ u ∈ rest, u.key = some k :=
              (keyCount_pos_iff rest k).1 hdup
            simp [rdkLoop, ho, if_pos hgt, ih _ hrest, keepLastSpec, replacedSpec,
              hex, hex2]
          · have hng : ¬ 1 < cnt k := by omega
            have hnex : ¬ (o.key ≠ none ∧ ∃ u ∈ rest, u.key = o.key) := by
              rintro ⟨-, u, hu, huk⟩
              rw [ho] at huk
              exact hdup ((keyCount_pos_iff rest k).2 ⟨u, hu, huk⟩)
            have hrest : ∀ k2, 0 < keyCount rest k2 → cnt k2 = keyCount rest k2 := by
              intro k2 hk2
              by_cases hk2k : k2 = k
              · subst hk2k; omega
              · rw [← hco2 k2 hk2k]
                exact h k2 (by rw [hco2 k2 hk2k]; exact hk2)
            have hnex2 : ¬ ∃ u ∈ rest, u.key = some k := by
              rintro ⟨u, hu, huk⟩
              exact hdup ((keyCount_pos_iff rest k).2 ⟨u, hu, huk⟩)
            simp [rdkLoop, ho, if_neg hng, ih cnt hrest, keepLastSpec, replacedSpec,
              hnex, hnex2]

theorem keepLastSpec_eq_self (l : List OrderB) (h : ∀ k, keyCount l k ≤ 1) :
    keepLastSpec l = l ∧ replacedSpec l = [] := by
  induction l with
  | nil => exact ⟨rfl, rfl⟩
  | cons o rest ih =>
      have hrest : ∀ k, keyCount rest k ≤ 1 := by
        intro k
        have := h k
        rw [keyCount_cons] at this
        omega
      have hcond : ¬ (o.key ≠ none ∧ ∃ u ∈ rest, u.key = o.key) := by
        rintro ⟨hne, u, hu, huk⟩
        cases ho : o.key with
        | none => exact hne ho
        | some k =>
            rw [ho] at huk
            have h1 : 0 < keyCount rest k := (keyCount_pos_iff rest k).2 ⟨u, hu, huk⟩
            have h2 := h k
            rw [keyCount_cons, if_pos ho] at h2
            omega
      obtain ⟨ih1, ih2⟩ := ih hrest
      simp [keepLastSpec, replacedSpec, hcond, ih1, ih2]

theorem counts_le_one_of_no_dup (l : List OrderB)
    (h : l.any (fun o =>
        match o.key with
        | some k => 1 < keyCount l k
        | none => false) = false) :
    ∀ k, keyCount l k ≤ 1 := by
  intro k
  by_contra hk
  push_neg at hk
  obtain ⟨u, hu, huk⟩ := (keyCount_pos_iff l k).1 (by omega)
  have hfa := List.any_eq_false.mp h u hu
  rw [huk] at hfa
  simp at hfa
  omega

theorem keepLastSpec_sublist (l : List OrderB) :
    List.Sublist (keepLastSpec l) l := by
  induction l with
  | nil => simp [keepLastSpec]
  | cons o rest ih =>
      by_cases hc : o.key ≠ none ∧ ∃ u ∈ rest, u.key = o.key
      · rw [keepLastSpec, if_pos hc]
        exact ih.cons o
      · rw [keepLastSpec, if_neg hc]
        exact ih.cons₂ o

theorem keyCount_keepLastSpec (l : List OrderB) (k : String)
    (h : 0 < keyCount l k) : keyCount (keepLastSpec l) k = 1 := by
  induction l with
  | nil => simp [keyCount] at h
  | cons o rest ih =>
      by_cases ho : o.key = some k
      · by_cases hr : 0 < keyCount rest k
        · have hex : o.key ≠ none ∧ ∃ u ∈ rest, u.key = o.key := by
            refine ⟨by rw [ho]; simp, ?_⟩
            rw [ho]; exact (keyCount_pos_iff rest k).1 hr
          rw [keepLastSpec, if_pos hex]
          exact ih hr
        · have hnex : ¬ (o.key ≠ none ∧ ∃ u ∈ rest, u.key = o.key) := by
            rintro ⟨-, u, hu, huk⟩
            rw [ho] at huk
            exact hr ((keyCount_pos_iff rest k).2 ⟨u, hu, huk⟩)
          rw [keepLastSpec, if_neg hnex, keyCount_cons, if_pos ho]
          have hle : keyCount (keepLastSpec rest) k ≤ keyCount rest k :=
            (((keepLastSpec_sublist rest).filter _).length_le)
          omega
      · have hr : 0 < keyCount rest k := by
          rw [keyCount_cons, if_neg ho] at h
          omega
        by_cases hc : o.key ≠ none ∧ ∃ u ∈ rest, u.key = o.key
        · rw [keepLastSpec, if_pos hc]
          exact ih hr
        · rw [keepLastSpec, if_neg hc, keyCount_cons, if_neg ho]
          rw [ih hr]

/-- C4: `remove_duplicate_keys` retains, in their original order, exactly
the orders whose key is null or not shared with any later order (so the
most recent order per key), returns the earlier duplicates in queue order
with status REPLACED, and leaves exactly one order per non-null key
present. -/
theorem remove_duplicate_keys_eq (l : List OrderB) :
    remove_duplicate_keys l = (keepLastSpec l, replacedSpec l) := by
  rw [remove_duplicate_keys]
  by_cases hany : l.any (fun o =>
      match o.key with
      | some k => 1 < keyCount l k
      | none => false) = true
  · rw [if_pos hany]
    exact rdkLoop_eq_spec l (keyCount l) (fun _ _ => rfl)
  · rw [if_neg hany]
    obtain ⟨h1, h2⟩ := keepLastSpec_eq_self l
      (counts_le_one_of_no_dup l (by simpa using hany))
    rw [h1, h2]

theorem key_replacement (l : List OrderB) :
    remove_duplicate_keys l = (keepLastSpec l, replacedSpec l)
    ∧ (∀ k, 0 < keyCount l k → keyCount (keepLastSpec l) k = 1) :=
  ⟨remove_duplicate_keys_eq l, fun k hk => keyCount_keepLastSpec l k hk⟩

/-- Witness for C4 at a concrete queue: two orders share key k around a
keyless order; the older keyed order is replaced, the others are kept in
order, and key k retains exactly one order. -/
theorem key_replacement_witness :
    remove_duplicate_keys ordersDupKey
      = ([⟨OrderStatus.OPEN, 0, none, some "mid"⟩,
          ⟨OrderStatus.OPEN, 0, some "k", some "new"⟩],
         [⟨OrderStatus.REPLACED, 0, some "k", some "old"⟩])
    ∧ 0 < keyCount ordersDupKey "k"
    ∧ keyCount (keepLastSpec ordersDupKey) "k" = 1 := by
  have h := key_replacement ordersDupKey
  have h0 : 0 < keyCount ordersDupKey "k" := by decide
  refine ⟨?_, h0, h.2 "k" h0⟩
  rw [h.1]
  decide

/-! ## Positional idempotence (C8) -/

/-- C8: applying a PositionalOrder with check type POS_TQ_DIFFER whose
computed target quantity equals the current position produces no trades
and leaves the book (cash, positions, transactions) untouched with status
COMPLETE, and applying it again is likewise a no-op. -/
theorem positional_idempotence (b : Book) (an : AssetName) (lbl : Option String)
    (ts : ℕ) (tq tp : ℚ) (h : tq = b.positions an) :
    positional_apply b an lbl PositionalOrderCheckType.POS_TQ_DIFFER ts tq tp
        pre_execute_check_default = (b, OrderStatus.COMPLETE)
    ∧ positional_apply
        (positional_apply b an lbl PositionalOrderCheckType.POS_TQ_DIFFER ts tq tp
          pre_execute_check_default).1
        an lbl PositionalOrderCheckType.POS_TQ_DIFFER ts tq tp
        pre_execute_check_default
      = ((positional_apply b an lbl PositionalOrderCheckType.POS_TQ_DIFFER ts tq tp
          pre_execute_check_default).1, OrderStatus.COMPLETE) := by
  have h1 : positional_apply b an lbl PositionalOrderCheckType.POS_TQ_DIFFER ts tq tp
      pre_execute_check_default = (b, OrderStatus.COMPLETE) := by
    subst h
    simp [positional_apply, pre_execute_check_default, book_trades,
      Book.test_trades, Book.add_transactions]
  refine ⟨h1, ?_⟩
  rw [h1]
  exact h1

/-- Witness for C8: a book holding five units of asset A and a positional
order targeting five units is a no-op with status COMPLETE. -/
theorem positional_idempotence_witness :
    (5 : ℚ) = bookPosA.positions "A"
    ∧ positional_apply bookPosA "A" none PositionalOrderCheckType.POS_TQ_DIFFER
        0 5 10 pre_execute_check_default = (bookPosA, OrderStatus.COMPLETE) := by
  have hp : (5 : ℚ) = bookPosA.positions "A" := by simp [bookPosA]
  exact ⟨hp, (positional_idempotence bookPosA "A" none 0 5 10 hp).1⟩

/-! ## Pre-execution hook protocol (C5) -/

theorem book_trades_status (b : Book) (trades : List Trade) :
    (book_trades b trades).2 = OrderStatus.COMPLETE
    ∨ (book_trades b trades).2 = OrderStatus.MANDATE_FAILED := by
  by_cases h : b.test_trades trades = true
  · left; simp [book_trades, h]
  · right; simp [book_trades, h]

/-- C5 (amended): `Order.apply` and `PositionalOrder.apply` invoke the
pre-execution hook with the computed execution price before building
trades and adopt any status it returns (terminal or OPEN) without booking;
`BasketOrder.apply` and `PositionalBasketOrder.apply` consult no hook and
always proceed to booking, so their status is only ever COMPLETE or
MANDATE_FAILED. -/
theorem pre_execute_hook_protocol (b : Book) (an : AssetName)
    (lbl : Option String) (ct : PositionalOrderCheckType) (ts : ℕ) (tq tp : ℚ)
    (hook : ℕ → ℚ → Option OrderStatus) (st : OrderStatus)
    (asset_names : List AssetName) (tqps : List (ℚ × ℚ)) :
    (hook ts tp = some st →
      order_apply b an lbl ts tq tp hook = Except.ok (b, st))
    ∧ (hook ts tp = some st →
      positional_apply b an lbl ct ts tq tp hook = (b, st))
    ∧ (hook ts tp = none → tq ≠ 0 →
      order_apply b an lbl ts tq tp hook
        = Except.ok (book_trades b [⟨ts, tq, tp, an, lbl⟩]))
    ∧ (∀ res, basket_apply b lbl ts asset_names tqps = Except.ok res →
      res.2 = OrderStatus.COMPLETE ∨ res.2 = OrderStatus.MANDATE_FAILED)
    ∧ ((positional_basket_apply b lbl ct ts asset_names tqps).2
          = OrderStatus.COMPLETE
      ∨ (positional_basket_apply b lbl ct ts asset_names tqps).2
          = OrderStatus.MANDATE_FAILED) := by
  refine ⟨fun h => ?_, fun h => ?_, fun h hq => ?_, fun res hres => ?_, ?_⟩
  · simp [order_apply, h]
  · simp [positional_apply, h]
  · simp [order_apply, h, mkTrade, hq]
  · rw [basket_apply] at hres
    rcases hbt : basket_trades ts lbl (asset_names.zip tqps) with _ | trs
    · rw [hbt] at hres; exact absurd hres (by simp)
    · rw [hbt] at hres
      have h3 : res = book_trades b trs := by
        injection hres with h2
        exact h2.symm
      rw [h3]
      exact book_trades_status b trs
  · exact book_trades_status b _

/-- Witness for C5 at concrete inputs: a cancelling hook short-circuits the
market and positional orders; the default hook lets the market order book;
a concrete basket application lands in the mandate-determined statuses. -/
theorem pre_execute_hook_protocol_witness :
    (cancelHook 0 10 = some OrderStatus.CANCELLED
      ∧ order_apply bookEmpty "A" none 0 1 10 cancelHook
          = Except.ok (bookEmpty, OrderStatus.CANCELLED)
      ∧ positional_apply bookEmpty "A" none PositionalOrderCheckType.POS_TQ_DIFFER
          0 1 10 cancelHook = (bookEmpty, OrderStatus.CANCELLED))
    ∧ (pre_execute_check_default 0 10 = none ∧ (1 : ℚ) ≠ 0
      ∧ order_apply bookEmpty "A" none 0 1 10 pre_execute_check_default
          = Except.ok (book_trades bookEmpty [⟨0, 1, 10, "A", none⟩]))
    ∧ (basket_apply bookEmpty none 0 ["A"] [(1, 10)]
        = Except.ok (book_trades bookEmpty [⟨0, 1, 10, "A", none⟩])
      ∧ ((book_trades bookEmpty [⟨0, 1, 10, "A", none⟩]).2 = OrderStatus.COMPLETE
        ∨ (book_trades bookEmpty [⟨0, 1, 10, "A", none⟩]).2
            = OrderStatus.MANDATE_FAILED)) := by
  have hc : cancelHook 0 10 = some OrderStatus.CANCELLED := rfl
  have hd : pre_execute_check_default 0 10 = none := rfl
  have hq : (1 : ℚ) ≠ 0 := by norm_num
  have hb : basket_apply bookEmpty none 0 ["A"] [(1, 10)]
      = Except.ok (book_trades bookEmpty [⟨0, 1, 10, "A", none⟩]) := by
    norm_num [basket_apply, basket_trades, mkTrade]
  refine ⟨⟨hc,
      (pre_execute_hook_protocol bookEmpty "A" none
        PositionalOrderCheckType.POS_TQ_DIFFER 0 1 10 cancelHook
        OrderStatus.CANCELLED [] []).1 hc,
      (pre_execute_hook_protocol bookEmpty "A" none
        PositionalOrderCheckType.POS_TQ_DIFFER 0 1 10 cancelHook
        OrderStatus.CANCELLED [] []).2.1 hc⟩,
    ⟨hd, hq,
      (pre_execute_hook_protocol bookEmpty "A" none
        PositionalOrderCheckType.POS_TQ_DIFFER 0 1 10 pre_execute_check_default
        OrderStatus.CANCELLED [] []).2.2.1 hd hq⟩,
    ⟨hb,
      (pre_execute_hook_protocol bookEmpty "A" none
        PositionalOrderCheckType.POS_TQ_DIFFER 0 1 10 pre_execute_check_default
        OrderStatus.CANCELLED ["A"] [(1, 10)]).2.2.2.1 _ hb⟩⟩

/-- Counterexample for C5 as stated: `BasketOrder.apply` books its trades
with status COMPLETE at a concrete input, while the spec-modelled
hook-gated basket application with an always-cancelling hook would stop
with status CANCELLED and an untouched book. -/
theorem basket_hook_counterexample :
    (basket_apply bookEmpty none 0 ["A"] [(1, 10)]).map
        (fun r => (r.2, r.1.transactions.length)) = Except.ok (OrderStatus.COMPLETE, 1)
    ∧ basket_apply_hooked cancelHook bookEmpty none 0 ["A"] [(1, 10)]
        = Except.ok (bookEmpty, OrderStatus.CANCELLED)
    ∧ bookEmpty.transactions.length = 0 := by
  refine ⟨?_, rfl, rfl⟩
  have hb : basket_apply bookEmpty none 0 ["A"] [(1, 10)]
      = Except.ok (book_trades bookEmpty [⟨0, 1, 10, "A", none⟩]) := by
    norm_num [basket_apply, basket_trades, mkTrade]
  have ht : bookEmpty.test_trades [⟨0, 1, 10, "A", none⟩] = true := by
    simp [Book.test_trades, Book.test_trades_go, Book.check_group, bookEmpty]
  rw [hb]
  simp only [book_trades, ht, if_true, Except.map]
  simp [Book.add_transactions, Book.apply_transaction, bookEmpty]

/-! ## Positional basket decision (C7) -/

theorem foldl_append_trades (f : AssetName × ℚ × ℚ → List Trade)
    (l : List (AssetName × ℚ × ℚ)) (acc : List Trade) :
    l.foldl (fun acc p => acc ++ f p) acc = acc ++ l.flatMap f := by
  induction l generalizing acc with
  | nil => simp
  | cons p rest ih => simp [List.foldl_cons, ih, List.flatMap_cons]

/-- Counterexample for C7 as stated: with a position of five in asset A, a
target of five for A (its own condition warrants no trade) and a target of
three for B, the source emits a close and reopen for A anyway, while the
spec-modelled per-asset decision emits no trade for A. -/
theorem positional_basket_per_asset_counterexample :
    positional_basket_trades bookPosA 0 none PositionalOrderCheckType.POS_TQ_DIFFER
        ["A", "B"] [(5, 10), (3, 20)]
      = [⟨0, -5, 10, "A", none⟩, ⟨0, 5, 10, "A", none⟩, ⟨0, 3, 20, "B", none⟩]
    ∧ positional_basket_trades_per_asset bookPosA 0 none
        PositionalOrderCheckType.POS_TQ_DIFFER ["A", "B"] [(5, 10), (3, 20)]
      = [⟨0, 3, 20, "B", none⟩] := by
  have hA : bookPosA.positions "A" = 5 := by simp [bookPosA]
  have hB : bookPosA.positions "B" = 0 := by simp [bookPosA]
  constructor
  · norm_num [positional_basket_trades, positional_basket_needs,
      close_open_trades, hA, hB]
  · norm_num [positional_basket_trades_per_asset, close_open_trades, hA, hB]

/-- C7 (amended): the `PositionalBasketOrder` trade decision is global, not
per asset — when no zipped asset meets the `check_type` condition no trades
are emitted, but when any one does, every asset with a nonzero current
position gets a closing trade and every asset with a nonzero target gets an
opening trade, regardless of that asset's own condition. -/
theorem positional_basket_global_decision (b : Book) (ts : ℕ)
    (lbl : Option String) (ct : PositionalOrderCheckType)
    (asset_names : List AssetName) (tqps : List (ℚ × ℚ)) :
    (positional_basket_needs b ct asset_names tqps = false →
      positional_basket_trades b ts lbl ct asset_names tqps = [])
    ∧ (positional_basket_needs b ct asset_names tqps = true →
      ∀ p ∈ asset_names.zip tqps,
        (b.positions p.1 ≠ 0 →
          (⟨ts, -(b.positions p.1), p.2.2, p.1, lbl⟩ : Trade)
            ∈ positional_basket_trades b ts lbl ct asset_names tqps)
        ∧ (p.2.1 ≠ 0 →
          (⟨ts, p.2.1, p.2.2, p.1, lbl⟩ : Trade)
            ∈ positional_basket_trades b ts lbl ct asset_names tqps)) := by
  constructor
  · intro h
    rw [positional_basket_trades, h]
    simp
  · intro h p hp
    have hflat : positional_basket_trades b ts lbl ct asset_names tqps
        = (asset_names.zip tqps).flatMap (close_open_trades b ts lbl) := by
      rw [positional_basket_trades, h, if_pos rfl, foldl_append_trades,
        List.nil_append]
    rw [hflat]
    constructor
    · intro hpos
      exact List.mem_flatMap.mpr ⟨p, hp, by
        rw [close_open_trades, if_pos hpos]
        exact List.mem_append_left _ (List.mem_singleton.mpr rfl)⟩
    · intro htq
      exact List.mem_flatMap.mpr ⟨p, hp, by
        rw [close_open_trades, if_pos htq]
        exact List.mem_append_right _ (List.mem_singleton.mpr rfl)⟩

/-- Witness for C7: with a position of five in asset A, a single-asset
basket targeting five warrants nothing and emits no trades, while adding
asset B with target three flips the global decision and emits a closing
trade for A even though A's own condition is unmet. -/
theorem positional_basket_global_decision_witness :
    (positional_basket_needs bookPosA PositionalOrderCheckType.POS_TQ_DIFFER
        ["A"] [(5, 10)] = false
      ∧ positional_basket_trades bookPosA 0 none
          PositionalOrderCheckType.POS_TQ_DIFFER ["A"] [(5, 10)] = [])
    ∧ (positional_basket_needs bookPosA PositionalOrderCheckType.POS_TQ_DIFFER
        ["A", "B"] [(5, 10), (3, 20)] = true
      ∧ (⟨0, -(bookPosA.positions "A"), 10, "A", none⟩ : Trade)
          ∈ positional_basket_trades bookPosA 0 none
              PositionalOrderCheckType.POS_TQ_DIFFER ["A", "B"]
              [(5, 10), (3, 20)]) := by
  have hA : bookPosA.positions "A" = 5 := by simp [bookPosA]
  have hB : bookPosA.positions "B" = 0 := by simp [bookPosA]
  have hf : positional_basket_needs bookPosA PositionalOrderCheckType.POS_TQ_DIFFER
      ["A"] [(5, 10)] = false := by
    norm_num [positional_basket_needs, hA]
  have ht : positional_basket_needs bookPosA PositionalOrderCheckType.POS_TQ_DIFFER
      ["A", "B"] [(5, 10), (3, 20)] = true := by
    norm_num [positional_basket_needs, hA, hB]
  have hmem : (("A" : AssetName), ((5 : ℚ), (10 : ℚ)))
      ∈ (["A", "B"] : List AssetName).zip [((5 : ℚ), (10 : ℚ)), (3, 20)] := by
    simp
  refine ⟨⟨hf, (positional_basket_global_decision bookPosA 0 none
      PositionalOrderCheckType.POS_TQ_DIFFER ["A"] [(5, 10)]).1 hf⟩, ht, ?_⟩
  exact ((positional_basket_global_decision bookPosA 0 none
      PositionalOrderCheckType.POS_TQ_DIFFER ["A", "B"] [(5, 10), (3, 20)]).2
      ht ("A", (5, 10)) hmem).1 (by rw [hA]; norm_num)

/-! ## Mandate grouping (C6) -/

theorem all_eq_of_eq_on {α : Type} {p q : α → Bool} :
    ∀ xs : List α, (∀ x ∈ xs, p x = q x) → xs.all p = xs.all q
  | [], _ => rfl
  | x :: xs, hpq => by
      simp only [List.all_cons, hpq x (List.mem_cons_self x xs),
        all_eq_of_eq_on xs (fun y hy => hpq y (List.mem_cons_of_mem x hy))]

theorem all_eq_const {α : Type} {p : α → Bool} {c : Bool} :
    ∀ xs : List α, xs ≠ [] → (∀ x ∈ xs, p x = c) → xs.all p = c
  | [], hne, _ => absurd rfl hne
  | x :: xs, _, hpc => by
      cases hc : c with
      | false =>
          have hx := hpc x (List.mem_cons_self x xs)
          rw [hc] at hx
          simp [List.all_cons, hx]
      | true =>
          rw [List.all_eq_true]
          intro y hy
          rw [hpc y hy, hc]

theorem blocksJoin_asset_mem (blocks : List (AssetName × List Trade))
    (hblk : ∀ pr ∈ blocks, ∀ t ∈ pr.2, t.asset_name = pr.1) :
    ∀ t ∈ blocksJoin blocks, t.asset_name ∈ blocks.map Prod.fst := by
  intro t ht
  obtain ⟨pr, hpr, htpr⟩ := List.mem_flatMap.mp ht
  rw [hblk pr hpr t htpr]
  exact List.mem_map.mpr ⟨pr, hpr, rfl⟩

theorem test_trades_go_append (b : Book) (a : AssetName) (acc : ℚ)
    (run rest : List Trade) (h : ∀ t ∈ run, t.asset_name = a) :
    b.test_trades_go a acc (run ++ rest)
      = b.test_trades_go a (acc + (run.map Trade.quantity).sum) rest := by
  induction run generalizing acc with
  | nil => simp
  | cons t run ih =>
      have ht : t.asset_name = a := h t (List.mem_cons_self t run)
      simp only [List.cons_append, Book.test_trades_go, if_pos ht, List.append_eq]
      rw [ih (acc + t.quantity) (fun u hu => h u (List.mem_cons_of_mem t hu))]
      rw [List.map_cons, List.sum_cons, add_assoc]

theorem test_trades_go_check_head (b : Book) (a : AssetName) (q : ℚ)
    (l : List Trade) (h : ∀ t0 trs, l = t0 :: trs → t0.asset_name ≠ a) :
    b.test_trades_go a q l = (b.check_group a q && b.test_trades l) := by
  cases l with
  | nil => simp [Book.test_trades_go, Book.test_trades]
  | cons t0 trs =>
      simp only [Book.test_trades_go, Book.test_trades]
      rw [if_neg (h t0 trs rfl)]

theorem test_trades_blocks (b : Book) (blocks : List (AssetName × List Trade))
    (hne : ∀ pr ∈ blocks, pr.2 ≠ [])
    (hblk : ∀ pr ∈ blocks, ∀ t ∈ pr.2, t.asset_name = pr.1)
    (hnd : (blocks.map Prod.fst).Nodup) :
    b.test_trades (blocksJoin blocks)
      = blocks.all (fun pr => b.check_group pr.1 ((pr.2.map Trade.quantity).sum)) := by
  induction blocks with
  | nil => simp [blocksJoin, Book.test_trades]
  | cons pr blocks ih =>
      obtain ⟨a, trs⟩ := pr
      obtain ⟨t0, trs', rfl⟩ :=
        List.exists_cons_of_ne_nil (hne (a, trs) (List.mem_cons_self _ _))
      have ht0 : t0.asset_name = a :=
        hblk (a, t0 :: trs') (List.mem_cons_self _ _) t0 (List.mem_cons_self _ _)
      have hrun : ∀ t ∈ trs', t.asset_name = a := fun t htm =>
        hblk (a, t0 :: trs') (List.mem_cons_self _ _) t (List.mem_cons_of_mem t0 htm)
      have hna : a ∉ blocks.map Prod.fst := by
        rw [List.map_cons, List.nodup_cons] at hnd
        exact hnd.1
      have hblk2 : ∀ pr ∈ blocks, ∀ t ∈ pr.2, t.asset_name = pr.1 :=
        fun pr hpr => hblk pr (List.mem_cons_of_mem _ hpr)
      have hh : ∀ t ∈ blocksJoin blocks, t.asset_name ≠ a := by
        intro t htm heq
        exact hna (heq ▸ blocksJoin_asset_mem blocks hblk2 t htm)
      have e1 : blocksJoin ((a, t0 :: trs') :: blocks)
          = t0 :: (trs' ++ blocksJoin blocks) := by
        simp [blocksJoin]
      rw [e1]
      simp only [Book.test_trades]
      rw [ht0, test_trades_go_append b a t0.quantity trs' _ hrun,
        test_trades_go_check_head b a _ _
          (fun u us hus => hh u (by rw [hus]; exact List.mem_cons_self u us)),
        ih (fun pr hpr => hne pr (List.mem_cons_of_mem _ hpr)) hblk2
          (by rw [List.map_cons, List.nodup_cons] at hnd; exact hnd.2)]
      simp [List.all_cons]

theorem test_trades_spec_blocks (b : Book) (blocks : List (AssetName × List Trade))
    (hne : ∀ pr ∈ blocks, pr.2 ≠ [])
    (hblk : ∀ pr ∈ blocks, ∀ t ∈ pr.2, t.asset_name = pr.1)
    (hnd : (blocks.map Prod.fst).Nodup) :
    test_trades_spec b (blocksJoin blocks)
      = blocks.all (fun pr => b.check_group pr.1 ((pr.2.map Trade.quantity).sum)) := by
  induction blocks with
  | nil => simp [blocksJoin, test_trades_spec]
  | cons pr blocks ih =>
      obtain ⟨a, trs⟩ := pr
      obtain ⟨t0, trs', rfl⟩ :=
        List.exists_cons_of_ne_nil (hne (a, trs) (List.mem_cons_self _ _))
      have hall : ∀ t ∈ (t0 :: trs'), t.asset_name = a :=
        hblk (a, t0 :: trs') (List.mem_cons_self _ _)
      have hna : a ∉ blocks.map Prod.fst := by
        rw [List.map_cons, List.nodup_cons] at hnd
        exact hnd.1
      have hblk2 : ∀ pr ∈ blocks, ∀ t ∈ pr.2, t.asset_name = pr.1 :=
        fun pr hpr => hblk pr (List.mem_cons_of_mem _ hpr)
      have hjoin_ne : ∀ t ∈ blocksJoin blocks, t.asset_name ≠ a := by
        intro t htm heq
        exact hna (heq ▸ blocksJoin_asset_mem blocks hblk2 t htm)
      have e1 : blocksJoin ((a, t0 :: trs') :: blocks)
          = (t0 :: trs') ++ blocksJoin blocks := by
        simp [blocksJoin]
      rw [e1, test_trades_spec, List.all_append]
      have hfilter_a : ((t0 :: trs') ++ blocksJoin blocks).filter
          (fun u => u.asset_name = a) = t0 :: trs' := by
        rw [List.filter_append]
        have h1 : (t0 :: trs').filter (fun u => decide (u.asset_name = a))
            = t0 :: trs' :=
          List.filter_eq_self.mpr (fun u hu => decide_eq_true (hall u hu))
        have h2 : (blocksJoin blocks).filter (fun u => decide (u.asset_name = a))
            = [] :=
          List.filter_eq_nil_iff.mpr (fun u hu => by simp [hjoin_ne u hu])
        rw [h1, h2, List.append_nil]
      have hpart1 : (t0 :: trs').all (fun t => b.check_group t.asset_name
          (((((t0 :: trs') ++ blocksJoin blocks).filter
            (fun u => u.asset_name = t.asset_name)).map Trade.quantity).sum))
          = b.check_group a (((t0 :: trs').map Trade.quantity).sum) := by
        apply all_eq_const _ (by simp)
        intro t htm
        rw [hall t htm, hfilter_a]
      have hpart2 : (blocksJoin blocks).all (fun t => b.check_group t.asset_name
          (((((t0 :: trs') ++ blocksJoin blocks).filter
            (fun u => u.asset_name = t.asset_name)).map Trade.quantity).sum))
          = test_trades_spec b (blocksJoin blocks) := by
        rw [test_trades_spec]
        apply all_eq_of_eq_on
        intro t htm
        have hfil : ((t0 :: trs') ++ blocksJoin blocks).filter
            (fun u => u.asset_name = t.asset_name)
            = (blocksJoin blocks).filter (fun u => u.asset_name = t.asset_name) := by
          rw [List.filter_append]
          have h3 : (t0 :: trs').filter
              (fun u => decide (u.asset_name = t.asset_name)) = [] :=
            List.filter_eq_nil_iff.mpr (fun u hu => by
              have hua : u.asset_name = a := hall u hu
              have hta : t.asset_name ≠ a := hjoin_ne t htm
              simp only [hua, decide_eq_true_eq]
              exact fun hh => hta hh.symm)
          rw [h3, List.nil_append]
        rw [hfil]
      rw [hpart1, hpart2,
        ih (fun pr hpr => hne pr (List.mem_cons_of_mem _ hpr)) hblk2
          (by rw [List.map_cons, List.nodup_cons] at hnd; exact hnd.2)]
      simp [List.all_cons]

/-- C6 (amended): `Book.test_trades` groups only consecutive trades of the
same asset (as `itertools.groupby` does); for a batch arranged in per-asset
blocks with distinct assets it checks each mandated asset once against the
block's aggregate quantity, which then coincides with the spec-modelled
whole-batch grouping. -/
theorem mandate_grouping_consecutive (b : Book)
    (blocks : List (AssetName × List Trade))
    (hne : ∀ pr ∈ blocks, pr.2 ≠ [])
    (hblk : ∀ pr ∈ blocks, ∀ t ∈ pr.2, t.asset_name = pr.1)
    (hnd : (blocks.map Prod.fst).Nodup) :
    b.test_trades (blocksJoin blocks)
      = blocks.all (fun pr => b.check_group pr.1 ((pr.2.map Trade.quantity).sum))
    ∧ b.test_trades (blocksJoin blocks) = test_trades_spec b (blocksJoin blocks) :=
  ⟨test_trades_blocks b blocks hne hblk hnd,
   (test_trades_blocks b blocks hne hblk hnd).trans
     (test_trades_spec_blocks b blocks hne hblk hnd).symm⟩

/-- Witness for C6 at a concrete two-block batch over assets A and B. -/
theorem mandate_grouping_consecutive_witness :
    bookA.test_trades (blocksJoin [("A", [⟨0, 1, 1, "A", none⟩]),
        ("B", [⟨0, 1, 1, "B", none⟩])])
      = [("A", [(⟨0, 1, 1, "A", none⟩ : Trade)]),
         ("B", [⟨0, 1, 1, "B", none⟩])].all
          (fun pr => bookA.check_group pr.1 ((pr.2.map Trade.quantity).sum))
    ∧ bookA.test_trades (blocksJoin [("A", [⟨0, 1, 1, "A", none⟩]),
        ("B", [⟨0, 1, 1, "B", none⟩])])
      = test_trades_spec bookA (blocksJoin [("A", [⟨0, 1, 1, "A", none⟩]),
          ("B", [⟨0, 1, 1, "B", none⟩])]) := by
  exact mandate_grouping_consecutive bookA
    [("A", [⟨0, 1, 1, "A", none⟩]), ("B", [⟨0, 1, 1, "B", none⟩])]
    (by simp) (by simp) (by simp)

/-- Counterexample for C6 as stated: in the batch [A, B, A] with unit
quantities and an at-most-one mandate on A, the source checks the two A
runs separately (each passes), while grouping the whole batch by asset
aggregates A to quantity two and fails. -/
theorem mandate_grouping_counterexample :
    bookA.test_trades interleavedTrades = true
    ∧ test_trades_spec bookA interleavedTrades = false := by
  constructor
  · simp [Book.test_trades, Book.test_trades_go, Book.check_group, bookA,
      interleavedTrades, mandateAtMostOne]
  · simp [test_trades_spec, Book.check_group, bookA, interleavedTrades,
      mandateAtMostOne]

/-! ## Queue membership invariant (C9) -/

theorem status_mem_terminal_iff (s : OrderStatus) :
    s ∈ terminalStatuses ↔ s ≠ OrderStatus.OPEN := by
  cases s <;> simp [terminalStatuses]

theorem drain_statuses (applyFn : OrderB → Book → OrderB × Book × List OrderB)
    (l : List OrderB) (b : Book) (nxt prc : List OrderB)
    (hsub : ∀ o bk, ((applyFn o bk).2.2).all
      (fun s => s.status = OrderStatus.OPEN) = true)
    (hnxt : nxt.all (fun o => o.status = OrderStatus.OPEN) = true)
    (hprc : prc.all (fun o => o.status ≠ OrderStatus.OPEN) = true) :
    (drain applyFn l b nxt prc).1.all
      (fun o => o.status = OrderStatus.OPEN) = true
    ∧ (drain applyFn l b nxt prc).2.1.all
      (fun o => o.status ≠ OrderStatus.OPEN) = true := by
  induction l generalizing b nxt prc with
  | nil => exact ⟨hnxt, hprc⟩
  | cons o rest ih =>
      rw [drain]
      by_cases hst : (applyFn o b).1.status = OrderStatus.OPEN
      · rw [if_pos hst]
        refine ih _ _ _ ?_ hprc
        simp [List.all_append, hnxt, hsub o b, hst]
      · rw [if_neg hst]
        refine ih _ _ _ ?_ ?_
        · simp [List.all_append, hnxt, hsub o b]
        · rw [List.all_append, hprc]
          simp [hst]

theorem replacedSpec_statuses (l : List OrderB) :
    (replacedSpec l).all (fun o => o.status = OrderStatus.REPLACED) = true := by
  induction l with
  | nil => rfl
  | cons o rest ih =>
      by_cases hc : o.key ≠ none ∧ ∃ u ∈ rest, u.key = o.key
      · rw [replacedSpec, if_pos hc]
        simp [List.all_cons, ih]
      · rw [replacedSpec, if_neg hc]
        exact ih

theorem all_of_sublist {p : OrderB → Bool} {l m : List OrderB}
    (hs : List.Sublist l m) (h : m.all p = true) : l.all p = true := by
  rw [List.all_eq_true] at h ⊢
  exact fun x hx => h x (hs.subset hx)

theorem all_of_perm {p : OrderB → Bool} {l m : List OrderB}
    (hp : List.Perm l m) (h : m.all p = true) : l.all p = true := by
  rw [List.all_eq_true] at h ⊢
  exact fun x hx => h x (hp.subset hx)

/-- C9: after a runner timestep, every processed order carries one of the
four terminal statuses (COMPLETE, CANCELLED, MANDATE_FAILED, REPLACED) and
every order remaining in the unprocessed queue has status OPEN — provided
every suborder the apply dispatch emits is OPEN and the prior processed
list held no OPEN order. -/
theorem queue_membership_invariant
    (applyFn : OrderB → Book → OrderB × Book × List OrderB)
    (unproc prc : List OrderB) (b : Book)
    (hsub : ∀ o bk, ((applyFn o bk).2.2).all
      (fun s => s.status = OrderStatus.OPEN) = true)
    (hprc : prc.all (fun o => o.status ≠ OrderStatus.OPEN) = true) :
    (runner_timestep applyFn unproc prc b).2.1.all
      (fun o => o.status ∈ terminalStatuses) = true
    ∧ (runner_timestep applyFn unproc prc b).1.all
      (fun o => o.status = OrderStatus.OPEN) = true := by
  obtain ⟨hd1, hd2⟩ := drain_statuses applyFn (sort_by_priority unproc) b [] prc
    hsub rfl hprc
  have hrdk :=
    remove_duplicate_keys_eq (drain applyFn (sort_by_priority unproc) b [] prc).1
  have hprocessed : (runner_timestep applyFn unproc prc b).2.1
      = (drain applyFn (sort_by_priority unproc) b [] prc).2.1
        ++ replacedSpec (drain applyFn (sort_by_priority unproc) b [] prc).1 := by
    simp only [runner_timestep, hrdk]
  have hqueue : (runner_timestep applyFn unproc prc b).1
      = keepLastSpec (drain applyFn (sort_by_priority unproc) b [] prc).1 := by
    simp only [runner_timestep, hrdk]
  constructor
  · rw [hprocessed, List.all_eq_true]
    intro x hx
    simp only [decide_eq_true_eq]
    rw [status_mem_terminal_iff]
    rcases List.mem_append.mp hx with hx1 | hx2
    · have h2 := List.all_eq_true.mp hd2 x hx1
      simpa using h2
    · have h2 := List.all_eq_true.mp (replacedSpec_statuses _) x hx2
      simp only [decide_eq_true_eq] at h2
      rw [h2]
      simp
  · rw [hqueue]
    exact all_of_sublist (keepLastSpec_sublist _) hd1

/-- Witness for C9: the identity apply function (no suborders) on the
concrete priority queue with an empty processed list. -/
theorem queue_membership_invariant_witness :
    (runner_timestep applyId ordersPr231 [] bookEmpty).2.1.all
      (fun o => o.status ∈ terminalStatuses) = true
    ∧ (runner_timestep applyId ordersPr231 [] bookEmpty).1.all
      (fun o => o.status = OrderStatus.OPEN) = true :=
  queue_membership_invariant applyId ordersPr231 [] bookEmpty
    (fun _ _ => rfl) rfl

/-! ## Book resolution safety (C10) -/

theorem resolve_book_is_instance (bf : Option (BookName ⊕ Book))
    (bm : BookName → Option Book) (first : Book) :
    ∃ bk : Book, resolve_book bf bm first = some (Sum.inr bk) := by
  rcases bf with _ | bf2
  · exact ⟨first, rfl⟩
  · rcases bf2 with nm | b2
    · exact ⟨(bm nm).getD first, rfl⟩
    · exact ⟨b2, rfl⟩

theorem order_apply_ne_noBook (b : Book) (an : AssetName) (lbl : Option String)
    (ts : ℕ) (tq tp : ℚ) (hook : ℕ → ℚ → Option OrderStatus) :
    order_apply b an lbl ts tq tp hook ≠ Except.error ApplyErr.noBook := by
  rw [order_apply]
  cases hook ts tp with
  | some st => simp
  | none =>
      cases mkTrade ts tq tp an lbl with
      | none => simp
      | some tr => simp

theorem basket_apply_ne_noBook (b : Book) (lbl : Option String) (ts : ℕ)
    (asset_names : List AssetName) (tqps : List (ℚ × ℚ)) :
    basket_apply b lbl ts asset_names tqps ≠ Except.error ApplyErr.noBook := by
  rw [basket_apply]
  cases basket_trades ts lbl (asset_names.zip tqps) with
  | none => simp
  | some trs => simp

/-- C10: the runner's book-resolution step always leaves a `Book` instance
on the order (the configured books list is nonempty after setup and
resolution falls back to its first book), so the fatal missing-book error
branch inside every apply variant is unreachable for orders processed
through the run loop. -/
theorem book_resolution_safe (bf : Option (BookName ⊕ Book))
    (bm : BookName → Option Book) (mand : AssetName → Option BookMandate)
    (books : List Book) (first : Book) (an : AssetName) (lbl : Option String)
    (ct : PositionalOrderCheckType) (ts : ℕ) (tq tp : ℚ)
    (hook : ℕ → ℚ → Option OrderStatus)
    (asset_names : List AssetName) (tqps : List (ℚ × ℚ)) :
    setup_books mand books ≠ []
    ∧ (∃ bk : Book, resolve_book bf bm first = some (Sum.inr bk))
    ∧ order_apply_checked (resolve_book bf bm first) an lbl ts tq tp hook
        ≠ Except.error ApplyErr.noBook
    ∧ positional_apply_checked (resolve_book bf bm first) an lbl ct ts tq tp hook
        ≠ Except.error ApplyErr.noBook
    ∧ basket_apply_checked (resolve_book bf bm first) lbl ts asset_names tqps
        ≠ Except.error ApplyErr.noBook
    ∧ positional_basket_apply_checked (resolve_book bf bm first) lbl ct ts
        asset_names tqps ≠ Except.error ApplyErr.noBook := by
  obtain ⟨bk, hbk⟩ := resolve_book_is_instance bf bm first
  refine ⟨?_, ⟨bk, hbk⟩, ?_, ?_, ?_, ?_⟩
  · cases books with
    | nil => simp [setup_books]
    | cons x xs => simp [setup_books]
  · rw [order_apply_checked, hbk]
    simp only [book_instance_check, Except.bind]
    exact order_apply_ne_noBook bk an lbl ts tq tp hook
  · rw [positional_apply_checked, hbk]
    simp [book_instance_check, Except.bind]
  · rw [basket_apply_checked, hbk]
    simp only [book_instance_check, Except.bind]
    exact basket_apply_ne_noBook bk lbl ts asset_names tqps
  · rw [positional_basket_apply_checked, hbk]
    simp [book_instance_check, Except.bind]
